import Mathlib

/-!
Verification of the pulldown-latex streaming parser against its
natural-language specification.

The development shallowly embeds the three source files of the repository:

* src/parse/operator_table.rs : the OPERATOR_TABLE data and the
  index-halving lookup loop of is_operator, embedded with explicit fuel so
  that non-termination of the Rust loop is observable as fuel exhaustion at
  every fuel value.
* src/parser.rs : the driver (Parser::next, current_string,
  check_suffixes, handle_argument, error_with_context) with the Vec stacks
  modelled as Lean lists in push order (index 0 oldest, top at the end).
* src/parser/primitives.rs : InnerParser::handle_char_token, embedded in
  full, and the relevant arm of InnerParser::handle_primitive.

The lexer module (src/parser/lex.rs) and the classification tables module
(src/parser/tables.rs) are not part of the provided sources; they are
modelled from the specification where needed, and every such definition is
marked with a doc comment starting with the words Modelled from the spec.

Rust string slices are modelled by views (start and length in characters)
into the fixed input, together with static literals, so that the zero-copy
provenance of every emitted string is visible in the model.  Byte-level
facts (pointer offsets, slicing panics on non-character boundaries) are
recovered through an explicit UTF-8 encoding of the character list.
-/

namespace PulldownLatex

/-! ## Operator table (src/parse/operator_table.rs) -/

/-- The static OPERATOR_TABLE of src/parse/operator_table.rs: inclusive
code-point ranges stored as pairs of 16-bit values. -/
def OPERATOR_TABLE : List (Nat × Nat) := [
  (33, 34), (37, 47), (58, 59), (63, 64), (91, 96), (123, 126), (168, 168),
  (172, 172), (175, 180), (183, 185), (215, 215), (247, 247), (710, 711),
  (713, 715), (717, 717), (728, 730), (732, 733), (759, 759), (770, 770),
  (785, 785), (800, 800), (802, 803), (805, 805), (807, 807), (814, 814),
  (817, 817), (8214, 8214), (8216, 8223), (8226, 8226), (8242, 8247),
  (8254, 8254), (8259, 8260), (8279, 8279), (8289, 8292), (8411, 8412),
  (8517, 8518), (8592, 8597), (8602, 8622), (8624, 8629), (8633, 8633),
  (8636, 8661), (8666, 8688), (8691, 8708), (8710, 8711), (8719, 8732),
  (8735, 8738), (8743, 8758), (8760, 8760), (8764, 8764), (8768, 8768),
  (8844, 8846), (8851, 8859), (8861, 8865), (8890, 8903), (8905, 8908),
  (8910, 8911), (8914, 8915), (8965, 8966), (8968, 8971), (8976, 8976),
  (8985, 8985), (8994, 8995), (9001, 9002), (9140, 9141), (9165, 9165),
  (9180, 9185), (10098, 10099), (10132, 10135), (10137, 10137),
  (10139, 10145), (10149, 10150), (10152, 10159), (10161, 10161),
  (10163, 10163), (10165, 10165), (10168, 10168), (10170, 10174),
  (10176, 10176), (10187, 10187), (10189, 10189), (10214, 10225),
  (10228, 10239), (10496, 10528), (10548, 10551), (10562, 10613),
  (10620, 10624), (10627, 10649), (10651, 10671), (10680, 10680),
  (10684, 10684), (10692, 10696), (10708, 10715), (10722, 10722),
  (10741, 10749), (10752, 10853), (10971, 10973), (10988, 10989),
  (10998, 10998), (11003, 11007), (11012, 11015), (11020, 11025),
  (11056, 11070), (11072, 11084), (11104, 11109), (11114, 11117),
  (11120, 11123), (11130, 11133), (11136, 11143), (11157, 11157),
  (11168, 11183), (11192, 11192)]

/-- Result of running the is_operator lookup loop for a bounded number of
iterations.  The Rust loop either returns true (found), breaks and the
function returns false (notFound), or keeps iterating; exhausted records
that the given number of iterations did not suffice.  panicked models an
out-of-bounds table access, which cannot actually occur. -/
inductive LookupRes where
  | found
  | notFound
  | exhausted
  | panicked
deriving DecidableEq

/-- The body of the loop in is_operator (src/parse/operator_table.rs,
lines 11 to 29), iterated fuel times from the given index.  The index
update rules are exactly those of the source: index divided by two when c
is below the range, index plus half the remaining length when c is above
the range. -/
def isOperatorLoop (c : Nat) (index : Nat) : Nat → LookupRes
  | 0 => .exhausted
  | fuel + 1 =>
    match OPERATOR_TABLE.get? index with
    | none => .panicked
    | some (start, stop) =>
      if c < start then
        if index = 0 then .notFound
        else isOperatorLoop c (index / 2) fuel
      else if stop < c then
        if index = OPERATOR_TABLE.length - 1 then .notFound
        else isOperatorLoop c (index + (OPERATOR_TABLE.length - index) / 2) fuel
      else .found

/-- is_operator (src/parse/operator_table.rs): the char is cast to u16,
which truncates the code point to its low 16 bits, and the loop starts at
half the table length.  The fuel parameter makes the partiality of the
Rust loop explicit: a run of the Rust function terminates with value b
exactly when some fuel yields found or notFound here. -/
def is_operator (c : Char) (fuel : Nat) : LookupRes :=
  isOperatorLoop (c.toNat % 65536) (OPERATOR_TABLE.length / 2) fuel

/-- Membership of a code-point value in some inclusive range of
OPERATOR_TABLE; this is the reference semantics named by the
specification. -/
def inOperatorTable (n : Nat) : Bool :=
  OPERATOR_TABLE.any (fun p => decide (p.1 ≤ n) && decide (n ≤ p.2))

/-! ## UTF-8 byte layout helpers -/

/-- The UTF-8 encoding of one scalar value, as byte values. -/
def utf8EncodeChar (c : Char) : List Nat :=
  let n := c.toNat
  if n < 128 then [n]
  else if n < 2048 then [192 + n / 64, 128 + n % 64]
  else if n < 65536 then [224 + n / 4096, 128 + n / 64 % 64, 128 + n % 64]
  else [240 + n / 262144, 128 + n / 4096 % 64, 128 + n / 64 % 64, 128 + n % 64]

/-- UTF-8 bytes of a character list. -/
def utf8List (cs : List Char) : List Nat :=
  (cs.map utf8EncodeChar).flatten

/-- Byte offset of the character position k inside the list cs (the sum of
the encoded lengths of the first k characters). -/
def byteOffset (cs : List Char) (k : Nat) : Nat :=
  (utf8List (cs.take k)).length

/-- Total byte length of a character list. -/
def byteLen (cs : List Char) : Nat := (utf8List cs).length

/-- Whether the byte position b is a character boundary of cs, in the
sense of Rust str slicing: it must be the byte offset of some character
position (or the end). -/
def isCharBoundary (cs : List Char) (b : Nat) : Bool :=
  (List.range (cs.length + 1)).any (fun k => byteOffset cs k == b)

/-! ## Strings, views and the event vocabulary -/

/-- A view into the original input: start position and length, counted in
characters.  Rust borrows of the input are modelled by views; byte-level
data is recovered through the UTF-8 helpers above. -/
structure View where
  start : Nat
  len : Nat
deriving DecidableEq

/-- A Rust str value as it occurs inside events: either a view into the
original input, or a static string literal baked into the binary. -/
inductive SStr where
  | view (v : View)
  | lit (s : List Char)
deriving DecidableEq

/-- The characters denoted by a view of the input. -/
def viewChars (input : List Char) (v : View) : List Char :=
  (input.drop v.start).take v.len

/-- First character of a view, if any. -/
def firstChar (input : List Char) (v : View) : Option Char :=
  (viewChars input v).head?

/-- Advance a view by n characters (Rust slicing from position n). -/
def vadvance (v : View) (n : Nat) : View := ⟨v.start + n, v.len - n⟩

/-- Whitespace test used by the model for trim_start.
Modelled from the spec: the real lexer is not among the sources; ASCII
whitespace suffices for every input considered here. -/
def isWsChar (c : Char) : Bool :=
  c == ' ' || c == '\t' || c == '\n' || c == '\r'

/-- trim_start on a view. -/
def vtrimStart (input : List Char) (v : View) : View :=
  vadvance v ((viewChars input v).takeWhile isWsChar).length

/-- A view is well formed when it lies inside the input. -/
def View.wf (input : List Char) (v : View) : Prop :=
  v.start + v.len ≤ input.length

/-- The opening brace character, kept out of literal syntax. -/
def braceOpen : Char := Char.ofNat 123

/-- The closing brace character, kept out of literal syntax. -/
def braceClose : Char := Char.ofNat 125

/-- The characters of the static non-breaking-space text emitted for the
tilde character and for the nobreakspace primitive. -/
def nbspChars : List Char := "&nbsp;".toList

/-- GroupType of src/parser.rs: what initiated the currently open
group. -/
inductive GroupType where
  | Brace
  | BeginGroup
  | LeftRight
deriving DecidableEq

/-- Grouping kinds of the event vocabulary (the Grouping enum referenced
by src/parser/primitives.rs); only the kinds reachable in the embedded
fragment are carried. -/
inductive GroupKind where
  | Normal
  | Internal
  | LeftRight (opening closing : Option Char)
deriving DecidableEq

/-- DelimiterType of the event vocabulary. -/
inductive DelimiterType where
  | Open
  | Close
  | Fence
deriving DecidableEq

/-- DelimiterSize of the event vocabulary. -/
inductive DelimiterSize where
  | Big
  | BIG
  | Bigg
  | BIGG
deriving DecidableEq

/-- The Identifier payload of Number content in src/parser.rs: a single
character or a string. -/
inductive Identifier where
  | Chr (c : Char)
  | Str (s : SStr)
deriving DecidableEq

/-- Content events, covering every constructor reachable in the embedded
fragment. -/
inductive Content where
  | Ordinary (content : Char) (stretchy : Bool)
  | BinaryOp (content : Char) (small : Bool)
  | Relation (content : Char) (unicodeVariant : Bool) (small : Bool)
  | LargeOp (content : Char) (small : Bool)
  | Number (n : Identifier)
  | Punctuation (c : Char)
  | Delimiter (content : Char) (size : Option DelimiterSize) (ty : DelimiterType)
  | Text (s : SStr)
  | Function (s : SStr)
deriving DecidableEq

/-- Script or visual composite markers emitted by the driver (the Visual
enum of the old parser model, restricted to the constructors the embedded
fragment can produce). -/
inductive Visual where
  | Subscript
  | Superscript
  | SubSuperscript
deriving DecidableEq

/-- The public event vocabulary, restricted to the constructors reachable
in the embedded fragment. -/
inductive Event where
  | Begin (g : GroupKind)
  | End
  | Content (c : Content)
  | Visual (v : Visual)
  | Alignment
deriving DecidableEq

/-- Instruction of src/parser.rs: either an event ready to be produced or
a substring still to be parsed.  The allowsAlignment flag carried by the
SubGroup instructions of src/parser/primitives.rs is kept alongside the
view. -/
inductive Instruction where
  | event (e : Event)
  | substring (v : View) (allowsAlignment : Bool)
deriving DecidableEq

/-- The error kinds of src/parser.rs together with the additional kinds
referenced by src/parser/primitives.rs. -/
inductive ErrorKind where
  | UnbalancedGroup (expected : Option GroupType)
  | MathShift
  | HashSign
  | AlignmentChar
  | EndOfInput
  | Dimension
  | Glue
  | DimensionArgument
  | DimensionUnit
  | MathUnit
  | Delimiter
  | ControlSequence
  | Number
  | CharacterNumber
  | Argument
  | EmptySubscript
  | EmptySuperscript
  | DoubleSubscript
  | DoubleSuperscript
  | SubscriptAsToken
  | SuperscriptAsToken
  | UnknownPrimitive
  | TextModeControlSequence
  | ControlSequenceAsArgument
  | UnknownColor
  | InvalidCharNumber
  | Environment
  | Relax
deriving DecidableEq

/-- ParseError of src/parser.rs: the error kind together with the context
window, recorded as byte start, byte end and the marker offset inside the
window. -/
structure ParseError where
  error : ErrorKind
  context : Option (Nat × Nat × Nat)
deriving DecidableEq

/-- Token of src/parser.rs.  A character token carries the view starting
at the character (the CharToken of the newer sources), from which both the
character itself and the as_str remainder are recovered. -/
inductive Token where
  | ControlSequence (cs : View)
  | Character (tok : View)
deriving DecidableEq

/-- Argument of src/parser.rs. -/
inductive Argument where
  | Token (t : Token)
  | Group (g : View)
deriving DecidableEq

/-! ## Modelled lexer

The lexer module src/parser/lex.rs is not among the provided sources; the
operations used by the embedded fragment are modelled from section 4.2 of
the specification. -/

/-- Modelled from the spec: next-token skips leading whitespace; if the
next character is the escape character it reads either a run of alphabetic
characters as the control-sequence name (consuming trailing spaces) or the
single following character as a one-character control sequence; otherwise
it returns the next character as a character token, advancing past it; it
fails with EndOfInput when the cursor is empty. -/
def lex_token (input : List Char) (v : View) : Except ErrorKind (Token × View) :=
  let v1 := vtrimStart input v
  match firstChar input v1 with
  | none => .error .EndOfInput
  | some c =>
    if c = '\\' then
      let r := vadvance v1 1
      match firstChar input r with
      | none => .error .EndOfInput
      | some c2 =>
        if c2.isAlpha then
          let n := ((viewChars input r).takeWhile Char.isAlpha).length
          .ok (.ControlSequence ⟨r.start, n⟩, vtrimStart input (vadvance r n))
        else .ok (.ControlSequence ⟨r.start, 1⟩, vadvance r 1)
    else .ok (.Character v1, vadvance v1 1)

/-- Whether the marker m occurs at character position pos of the view. -/
def matchesAt (input : List Char) (v : View) (pos : Nat) (m : List Char) : Bool :=
  m.isPrefixOf ((viewChars input v).drop pos)

/-- Scanning loop of group-content: returns the position of the matching
close marker, tracking nesting depth over the literal markers.  The fuel
is one more than the view length, which always suffices for non-empty
markers since every step advances the position. -/
def gcGo (input : List Char) (v : View) (openM closeM : List Char) :
    Nat → Nat → Nat → Option Nat
  | _, _, 0 => none
  | pos, depth, fuel + 1 =>
    if v.len ≤ pos then none
    else if matchesAt input v pos openM then
      gcGo input v openM closeM (pos + openM.length) (depth + 1) fuel
    else if matchesAt input v pos closeM then
      if depth = 0 then some pos
      else gcGo input v openM closeM (pos + closeM.length) (depth - 1) fuel
    else gcGo input v openM closeM (pos + 1) depth fuel

/-- Modelled from the spec: group-content scans forward tracking depth
over the literal open and close markers, returns the view between the
cursor and the matching close marker, and consumes the close marker.  A
missing close marker is an unbalanced-group failure. -/
def group_content (input : List Char) (v : View) (openM closeM : List Char) :
    Except ErrorKind (View × View) :=
  match gcGo input v openM closeM 0 0 (v.len + 1) with
  | some pos => .ok (⟨v.start, pos⟩, vadvance v (pos + closeM.length))
  | none => .error (.UnbalancedGroup none)

/-- Modelled from the spec: argument skips whitespace; if the next
character is an opening brace it returns the brace-balanced body as a
Group, consuming the matching close brace; otherwise it returns a single
token from next-token. -/
def lex_argument (input : List Char) (v : View) :
    Except ErrorKind (Argument × View) :=
  let v1 := vtrimStart input v
  if firstChar input v1 = some braceOpen then
    match group_content input (vadvance v1 1) [braceOpen] [braceClose] with
    | .ok (body, rest) => .ok (.Group body, rest)
    | .error e => .error e
  else
    match lex_token input v1 with
    | .ok (t, rest) => .ok (.Token t, rest)
    | .error e => .error e

/-! ## The character dispatcher (src/parser/primitives.rs) -/

/-- The classification tables consulted by the character dispatcher.
Their module (src/parser/tables.rs) is not among the provided sources, so
the dispatcher is parameterised over them; the specification describes
them as pure data. -/
structure Tables where
  is_binary : Char → Bool
  is_relation : Char → Bool
  char_delimiter_map : Char → Option (Char × DelimiterType)

/-- Modelled from the spec: the contents of the classification tables are
external data pinned against published ranges and are absent from the
sources; the concrete runs below only require that plain letters are not
classified as binary, relation or delimiter characters, which holds for
the real tables. -/
def tablesModel : Tables :=
  { is_binary := fun _ => false
    is_relation := fun _ => false
    char_delimiter_map := fun _ => none }

/-- The mutable fields of InnerParser touched by the character
dispatcher: the current cursor and the staging buffer. -/
structure Inner where
  content : View
  buffer : List Instruction
deriving DecidableEq

/-- Result of a handler call: success with the updated state, an inner
error, or a Rust panic. -/
inductive HRes (α : Type) where
  | ok (a : α)
  | errK (e : ErrorKind)
  | panicked
deriving DecidableEq

/-- The ordinary helper of src/parser/primitives.rs. -/
def ordinary (c : Char) : Event := .Content (.Ordinary c false)

/-- The relation helper of src/parser/primitives.rs. -/
def relationEv (c : Char) : Event := .Content (.Relation c false false)

/-- The binary helper of src/parser/primitives.rs. -/
def binaryEv (c : Char) : Event := .Content (.BinaryOp c false)

/-- InnerParser::handle_char_token (src/parser/primitives.rs, lines 24 to
110), translated arm by arm in source order.  The token argument is the
CharToken: the view starting at the character.  The backslash and percent
arms panic; the underscore and caret arms emit an empty Normal group and
reset the cursor to the token; the alignment arm applies only when the
state allows alignment, otherwise the character falls through to the
table-driven arms. -/
def handle_char_token (T : Tables) (al : Bool) (input : List Char)
    (inn : Inner) (tok : View) : HRes Inner :=
  match firstChar input tok with
  | none => .panicked
  | some c =>
    if c = '\\' then .panicked
    else if c = '%' then .panicked
    else if c = '_' ∨ c = '^' then
      .ok ⟨tok, inn.buffer ++ [.event (.Begin .Normal), .event .End]⟩
    else if c = '$' then .errK .MathShift
    else if c = '#' then .errK .HashSign
    else if c = '&' ∧ al then
      .ok ⟨inn.content, inn.buffer ++ [.event .Alignment]⟩
    else if c = braceOpen then
      match group_content input inn.content [braceOpen] [braceClose] with
      | .error e => .errK e
      | .ok (body, rest) =>
        .ok ⟨rest, inn.buffer ++
          [.event (.Begin .Normal), .substring body false, .event .End]⟩
    else if c = braceClose then .errK (.UnbalancedGroup none)
    else if c = '~' then
      .ok ⟨inn.content, inn.buffer ++ [.event (.Content (.Text (.lit nbspChars)))]⟩
    else if '0' ≤ c ∧ c ≤ '9' then
      let len := 1 + (((viewChars input tok).drop 1).takeWhile
        (fun d => d == '.' || d == ',' || ('0' ≤ d && d ≤ '9'))).length
      match (utf8List (viewChars input tok)).get? (len - 1) with
      | none => .panicked
      | some b =>
        let len := if b = 46 ∨ b = 44 then len - 1 else len
        .ok ⟨vadvance tok len, inn.buffer ++
          [.event (.Content (.Number (.Str (.view ⟨tok.start, len⟩))))]⟩
    else if c = '.' ∨ c = ',' ∨ c = ';' then
      .ok ⟨inn.content, inn.buffer ++ [.event (.Content (.Punctuation c))]⟩
    else if c = '\'' then
      .ok ⟨inn.content, inn.buffer ++ [.event (ordinary '′')]⟩
    else if c = '-' then
      .ok ⟨inn.content, inn.buffer ++ [.event (binaryEv '−')]⟩
    else if c = '*' then
      .ok ⟨inn.content, inn.buffer ++ [.event (binaryEv '∗')]⟩
    else if T.is_binary c then
      .ok ⟨inn.content, inn.buffer ++ [.event (binaryEv c)]⟩
    else if T.is_relation c then
      .ok ⟨inn.content, inn.buffer ++ [.event (relationEv c)]⟩
    else match T.char_delimiter_map c with
      | some (content, ty) =>
        if ty = DelimiterType.Fence then
          .ok ⟨inn.content, inn.buffer ++ [.event (ordinary content)]⟩
        else
          .ok ⟨inn.content, inn.buffer ++
            [.event (.Content (.Delimiter content none ty))]⟩
      | none => .ok ⟨inn.content, inn.buffer ++ [.event (ordinary c)]⟩

/-- A primitive handler: takes the control-sequence name (a view into the
input) and the inner state. -/
def HandlePrim : Type := View → Inner → HRes Inner

/-- Partial embedding of InnerParser::handle_primitive
(src/parser/primitives.rs, lines 113 to 1482).  Only the bmod arm (line
140), which emits the static function name mod, is carried; every other
control sequence is left unmodelled and reported as UnknownPrimitive, the
behaviour of the final catch-all arm.  No claim quantifies over the
unmodelled arms and no concrete run below reaches them. -/
def handlePrimitiveModel (input : List Char) : HandlePrim := fun cs inn =>
  if viewChars input cs = "bmod".toList then
    .ok ⟨inn.content, inn.buffer ++ [.event (.Content (.Function (.lit "mod".toList)))]⟩
  else .errK .UnknownPrimitive

/-! ## The driver (src/parser.rs) -/

/-- The state of Parser (src/parser.rs): the instruction stack, the
staging buffer and the group stack.  All three Vec fields are lists in
push order: index zero is the oldest element and the top of a stack is the
last element. -/
structure PState where
  instruction_stack : List Instruction
  buffer : List Instruction
  group_stack : List GroupType
deriving DecidableEq

/-- Parser::new (src/parser.rs, lines 116 to 128): the instruction stack
holds the whole input and the group stack holds the outermost implicit
Brace group. -/
def Parser_new (input : List Char) : PState :=
  ⟨[.substring ⟨0, input.length⟩ false], [], [.Brace]⟩

/-- Replace the top substring of the instruction stack (the in-place
mutations through the mutable borrow returned by current_string). -/
def replaceTop (st : PState) (v : View) (al : Bool) : PState :=
  { st with instruction_stack := st.instruction_stack.dropLast ++ [.substring v al] }

/-- Outcome of current_string: a non-empty top substring, no substring on
top, or the unbalanced-group error raised while popping. -/
inductive CSRes where
  | strv (v : View) (al : Bool)
  | noStr
  | errU
deriving DecidableEq

/-- Core of Parser::current_string (src/parser.rs, lines 133 to 150),
written on the reversed stacks so that the recursion is structural: while
the top of the instruction stack is an empty substring, pop it and pop the
group stack, failing unless the popped group is Brace. -/
def csAux : List GroupType → List Instruction →
    CSRes × List GroupType × List Instruction
  | rgs, [] => (.noStr, rgs, [])
  | rgs, .event e :: rest => (.noStr, rgs, .event e :: rest)
  | rgs, .substring v al :: rest =>
    if v.len = 0 then
      match rgs with
      | .Brace :: grest => csAux grest rest
      | _ :: grest => (.errU, grest, rest)
      | [] => (.errU, [], rest)
    else (.strv v al, rgs, .substring v al :: rest)

/-- Parser::current_string on the driver state. -/
def current_string (st : PState) : CSRes × PState :=
  let r := csAux st.group_stack.reverse st.instruction_stack.reverse
  (r.1, { st with group_stack := r.2.1.reverse,
                  instruction_stack := r.2.2.reverse })

/-- Parser::handle_argument (src/parser.rs, lines 238 to 256): a token is
dispatched to the primitive or character handler, a group pushes Brace on
the group stack and a Begin, substring, End triple into the buffer. -/
def handle_argument (T : Tables) (HP : HandlePrim) (al : Bool)
    (input : List Char) (gs : List GroupType) (inn : Inner) (arg : Argument) :
    HRes (List GroupType × Inner) :=
  match arg with
  | .Token (.ControlSequence cs) =>
    match HP cs inn with
    | .ok inn1 => .ok (gs, inn1)
    | .errK e => .errK e
    | .panicked => .panicked
  | .Token (.Character tok) =>
    match handle_char_token T al input inn tok with
    | .ok inn1 => .ok (gs, inn1)
    | .errK e => .errK e
    | .panicked => .panicked
  | .Group g =>
    .ok (gs ++ [.Brace],
      ⟨inn.content, inn.buffer ++
        [.event (.Begin .Normal), .substring g al, .event .End]⟩)

/-- Result of check_suffixes: the optional script marker, an inner error,
or a Rust panic. -/
inductive CheckRes where
  | suffix (s : Option Visual)
  | errK (e : ErrorKind)
  | panicked
deriving DecidableEq

/-- Parser::check_suffixes (src/parser.rs, lines 153 to 233), translated
statement by statement.  first_suffix_start and second_suffix_start are
the buffer lengths recorded by the source; the final branch reproduces the
two drain arrangements: for a caret-first pair the two suffix segments are
moved to the instruction stack separately (superscript segment first) so
that the subscript is produced before the superscript, and otherwise the
whole suffix region is moved reversed. -/
def check_suffixes (T : Tables) (HP : HandlePrim) (input : List Char)
    (st : PState) : CheckRes × PState :=
  let fss := st.buffer.length
  match current_string st with
  | (.errU, st1) => (.errK (.UnbalancedGroup (some .Brace)), st1)
  | (.noStr, st1) => (.suffix none, st1)
  | (.strv v0 al0, st1) =>
    let v := vtrimStart input v0
    let st1 := replaceTop st1 v al0
    match firstChar input v with
    | none => (.suffix none, st1)
    | some c0 =>
      if c0 = '^' ∨ c0 = '_' then
        let subFirst := c0 = '_'
        let st2 := replaceTop st1 (vadvance v 1) al0
        match current_string st2 with
        | (.errU, st') => (.errK (.UnbalancedGroup (some .Brace)), st')
        | (.noStr, st') =>
          (.errK (if subFirst then .EmptySubscript else .EmptySuperscript), st')
        | (.strv w1 al1, st3) =>
          match lex_argument input w1 with
          | .error e => (.errK e, st3)
          | .ok (a1, r1) =>
            let st3 := replaceTop st3 r1 al1
            match handle_argument T HP al1 input st3.group_stack ⟨r1, st3.buffer⟩ a1 with
            | .errK e => (.errK e, st3)
            | .panicked => (.panicked, st3)
            | .ok (gs1, inn1) =>
              let stA := replaceTop st3 inn1.content al1
              let st4 : PState :=
                { stA with buffer := inn1.buffer, group_stack := gs1 }
              let sss := st4.buffer.length
              let finale : PState → CheckRes × PState := fun stF =>
                let sse := stF.buffer.length
                if ¬subFirst ∧ sss ≠ sse then
                  let seg1 := (stF.buffer.drop fss).take (sss - fss)
                  let seg2 := (stF.buffer.drop fss).drop (sss - fss)
                  (.suffix (some .SubSuperscript),
                   { stF with
                      instruction_stack :=
                        stF.instruction_stack ++ seg1.reverse ++ seg2.reverse,
                      buffer := stF.buffer.take fss })
                else
                  (.suffix (some (if sss ≠ sse then .SubSuperscript
                    else if subFirst then .Subscript else .Superscript)),
                   { stF with
                      instruction_stack :=
                        stF.instruction_stack ++ (stF.buffer.drop fss).reverse,
                      buffer := stF.buffer.take fss })
              match current_string st4 with
              | (.errU, st') => (.errK (.UnbalancedGroup (some .Brace)), st')
              | (.noStr, st5) => finale st5
              | (.strv w2 al2, st5) =>
                match firstChar input w2 with
                | none => (.panicked, st5)
                | some nc =>
                  if (nc = '_' ∧ ¬subFirst) ∨ (nc = '^' ∧ subFirst) then
                    let st6 := replaceTop st5 (vadvance w2 1) al2
                    match current_string st6 with
                    | (.errU, st') => (.errK (.UnbalancedGroup (some .Brace)), st')
                    | (.noStr, st') =>
                      (.errK (if subFirst then .EmptySuperscript else .EmptySubscript), st')
                    | (.strv w3 al3, st7) =>
                      match lex_argument input w3 with
                      | .error e => (.errK e, st7)
                      | .ok (a2, r2) =>
                        let st7 := replaceTop st7 r2 al3
                        match handle_argument T HP al3 input st7.group_stack
                            ⟨r2, st7.buffer⟩ a2 with
                        | .errK e => (.errK e, st7)
                        | .panicked => (.panicked, st7)
                        | .ok (gs2, inn2) =>
                          let stB := replaceTop st7 inn2.content al3
                          finale { stB with buffer := inn2.buffer, group_stack := gs2 }
                  else if nc = '_' ∨ nc = '^' then
                    (.errK (if subFirst then .DoubleSubscript else .DoubleSuperscript), st5)
                  else finale st5
      else (.suffix none, st1)

/-- The script marker pushed above the drained atom when a suffix was
parsed (src/parser.rs, lines 376 to 379). -/
def suffixEvents : Option Visual → List Instruction
  | some s => [.event (.Visual s)]
  | none => []

/-- Step 3 of Parser::next (src/parser.rs, lines 374 to 379): drain the
staging buffer onto the instruction stack in reverse order and push the
script marker, if any, above it. -/
def drain_to_stack (st : PState) (suf : Option Visual) : PState :=
  { st with
      instruction_stack := st.instruction_stack ++ st.buffer.reverse ++ suffixEvents suf,
      buffer := [] }

/-- Parser::error_with_context (src/parser.rs, lines 259 to 295).  The
distance is the byte offset of the current cursor from the start of the
input; the window is fifteen bytes on each side, clamped to the input; the
Rust slice of the input at those byte positions panics unless both fall on
character boundaries, which the model reports as none. -/
def error_with_context (input : List Char) (st : PState) (kind : ErrorKind) :
    Option ParseError :=
  match st.instruction_stack.getLast? with
  | some (.substring v _) =>
    let distance := byteOffset input v.start
    let start := distance - 15
    let stop := min (byteLen input) (distance + 15)
    if isCharBoundary input start && isCharBoundary input stop then
      some ⟨kind, some (start, stop, distance - start)⟩
    else none
  | _ => some ⟨kind, none⟩

/-- One produced item of the event sequence. -/
inductive Item where
  | okE (e : Event)
  | errE (p : ParseError)
deriving DecidableEq

/-- Result of one call to Parser::next. -/
inductive NextRes where
  | item (i : Item)
  | done
  | panicked
  | fuelOut
deriving DecidableEq

/-- Surface an inner error through error_with_context, propagating the
slicing panic. -/
def mkErrItem (input : List Char) (st : PState) (e : ErrorKind) :
    NextRes × PState :=
  match error_with_context input st e with
  | some pe => (.item (.errE pe), st)
  | none => (.panicked, st)

/-- Parser::next (src/parser.rs, lines 301 to 385).  The fuel bounds the
self-recursion of next; a fuel of twice the remaining instruction count
plus the input length is always ample for the runs below.  The driver owns
the multi-digit number branch (lines 324 to 355), including the unsafe
one-byte back-extension of the cursor, which is sound because the consumed
digit is one byte wide. -/
def parser_next (T : Tables) (HP : HandlePrim) (input : List Char) :
    Nat → PState → NextRes × PState
  | 0, st => (.fuelOut, st)
  | fuel + 1, st =>
    match st.instruction_stack.getLast? with
    | none => (.done, st)
    | some (.event _) =>
      match st.instruction_stack.getLast? with
      | some (.event e) =>
        (.item (.okE e), { st with instruction_stack := st.instruction_stack.dropLast })
      | _ => (.panicked, st)
    | some (.substring _ _) =>
      match current_string st with
      | (.errU, st1) => mkErrItem input st1 (.UnbalancedGroup (some .Brace))
      | (.noStr, st1) => parser_next T HP input fuel st1
      | (.strv v al, st1) =>
        match lex_token input v with
        | .error .EndOfInput => (.done, st1)
        | .error e => mkErrItem input st1 e
        | .ok (tok, v1) =>
          let st2 := replaceTop st1 v1 al
          let hres : HRes Inner :=
            match tok with
            | .ControlSequence cs => HP cs ⟨v1, st2.buffer⟩
            | .Character cv =>
              match firstChar input cv with
              | none => .panicked
              | some c =>
                if '0' ≤ c ∧ c ≤ '9' then
                  let len := 1 + ((viewChars input v1).takeWhile
                    (fun d => d == '.' || d == ',' || ('0' ≤ d && d ≤ '9'))).length
                  if len = 1 then
                    .ok ⟨v1, st2.buffer ++ [.event (.Content (.Number (.Chr c)))]⟩
                  else
                    let nv : View := ⟨v1.start - 1, v1.len + 1⟩
                    match (utf8List (viewChars input nv)).get? (len - 1) with
                    | none => .panicked
                    | some b =>
                      let len := if b = 46 ∨ b = 44 then len - 1 else len
                      .ok ⟨vadvance nv len, st2.buffer ++
                        [.event (.Content (.Number (.Str (.view ⟨nv.start, len⟩))))]⟩
                else handle_char_token T al input ⟨v1, st2.buffer⟩ cv
          match hres with
          | .errK e => mkErrItem input st2 e
          | .panicked => (.panicked, st2)
          | .ok inn =>
            let stA := replaceTop st2 inn.content al
            let st3 : PState := { stA with buffer := inn.buffer }
            match check_suffixes T HP input st3 with
            | (.errK e, st4) => mkErrItem input st4 e
            | (.panicked, st4) => (.panicked, st4)
            | (.suffix suf, st4) =>
              parser_next T HP input fuel (drain_to_stack st4 suf)

/-- How a finite prefix of the event sequence ended. -/
inductive RunEnd where
  | finished
  | panicked
  | fuelOut
deriving DecidableEq

/-- Collect the items produced by repeated calls to Parser::next. -/
def runEvents (T : Tables) (HP : HandlePrim) (input : List Char) :
    Nat → PState → List Item × RunEnd
  | 0, _ => ([], .fuelOut)
  | fuel + 1, st =>
    match parser_next T HP input (fuel + 1) st with
    | (.item i, st1) =>
      let r := runEvents T HP input fuel st1
      (i :: r.1, r.2)
    | (.done, _) => ([], .finished)
    | (.panicked, _) => ([], .panicked)
    | (.fuelOut, _) => ([], .fuelOut)

/-- The full event sequence of an input under the modelled tables and the
partial primitive handler. -/
def parse_events (input : List Char) (fuel : Nat) : List Item × RunEnd :=
  runEvents tablesModel (handlePrimitiveModel input) input fuel (Parser_new input)

/-! ## Observation helpers over produced sequences -/

/-- Whether an item is an error. -/
def Item.isErr : Item → Bool
  | .errE _ => true
  | .okE _ => false

/-- Number of error items in a produced sequence. -/
def countErrs (items : List Item) : Nat := (items.filter Item.isErr).length

/-- Number of Begin events in a produced sequence. -/
def countBegin (items : List Item) : Nat :=
  (items.filter fun i => match i with | .okE (.Begin _) => true | _ => false).length

/-- Number of End events in a produced sequence. -/
def countEnd (items : List Item) : Nat :=
  (items.filter fun i => match i with | .okE .End => true | _ => false).length

/-- Whether a produced sequence contains the error
UnbalancedGroup(Some(Brace)). -/
def hasUnbalancedSomeBrace (items : List Item) : Bool :=
  items.any fun i => match i with
    | .errE p => decide (p.error = .UnbalancedGroup (some .Brace))
    | _ => false

/-- Whether a handler result is an inner error. -/
def HRes.isErrK {α : Type} : HRes α → Bool
  | .errK _ => true
  | _ => false

/-- The string fields carried by an event. -/
def eventStrs : Event → List SStr
  | .Content (.Number (.Str s)) => [s]
  | .Content (.Text s) => [s]
  | .Content (.Function s) => [s]
  | _ => []

/-- The string fields carried by an instruction destined for emission. -/
def instrStrs : Instruction → List SStr
  | .event e => eventStrs e
  | .substring _ _ => []

/-! ## Concrete inputs used by the claims -/

/-- Two math-shift characters. -/
def inputDollar : List Char := "$$".toList

/-- A single closing brace. -/
def inputCloseBrace : List Char := "\x7d".toList

/-- An open brace, a space and a closing brace. -/
def inputSpacedGroup : List Char := "\x7b \x7d".toList

/-- A single tilde. -/
def inputTilde : List Char := "~".toList

/-- A two-byte character followed by a thirteen-digit number and a
math-shift character; the math-shift error is raised at byte offset 16,
whose context window starts at byte 1, in the middle of the two-byte
character. -/
def inputAlpha : List Char := "α1234567890123$".toList

/-! ## C2, C3, C7, C8: behaviour of the driver on concrete inputs -/

/-- C2 (counterexample): the claim says the produced sequence contains at
most one Err and that the parser yields end-of-sequence after the first
failure; on the input of two math-shift characters the driver produces two
error items, because Parser::next leaves the parser state in place after
surfacing an error and the following poll parses the second character. -/
theorem c2_counterexample : countErrs (parse_events inputDollar 20).1 = 2 := rfl

/-- C2 (amended): the first failure is surfaced as the next produced item,
but the parser does not stop: subsequent polls continue parsing from the
current state and may surface further errors; the input of two math-shift
characters yields two MathShift errors and only then the end of the
sequence. -/
theorem c2_errors_not_terminal :
    parse_events inputDollar 20 =
      ([.errE ⟨.MathShift, some (0, 2, 1)⟩,
        .errE ⟨.MathShift, some (0, 2, 2)⟩], .finished) := rfl

/-- C3: on the input consisting of a brace group containing one space the
driver emits Begin(Normal) and then terminates the sequence with no
matching End and no error: the EndOfInput result of the token lexer makes
Parser::next return None (src/parser.rs, line 361) while the End event is
still pending on the instruction stack below the whitespace-only
substring.  This violates the balance invariant the specification states
for error-free parses. -/
theorem c3_balance_violated :
    parse_events inputSpacedGroup 30 = ([.okE (.Begin .Normal)], .finished) ∧
    countBegin (parse_events inputSpacedGroup 30).1 = 1 ∧
    countEnd (parse_events inputSpacedGroup 30).1 = 0 ∧
    countErrs (parse_events inputSpacedGroup 30).1 = 0 :=
  ⟨rfl, rfl, rfl, rfl⟩

set_option maxHeartbeats 1000000 in
/-- C7: the error context window is computed in bytes, not code points:
the failing math-shift character sits at byte offset 16, the window start
is 16 - 15 = 1, and byte 1 falls inside the two-byte first character of
the input, so the Rust slice input[start..end] taken by
Parser::error_with_context panics.  The model surfaces the panic after the
two successfully produced content events. -/
theorem c7_context_window_panics :
    (parse_events inputAlpha 12).2 = .panicked ∧
    (parse_events inputAlpha 12).1.length = 2 ∧
    countErrs (parse_events inputAlpha 12).1 = 0 ∧
    byteOffset inputAlpha 15 = 16 ∧
    isCharBoundary inputAlpha 1 = false :=
  ⟨rfl, rfl, rfl, rfl, rfl⟩

/-- C8 (counterexample): the claim says parsing a single closing brace
produces Err(UnbalancedGroup(Some(Brace))); the run produces exactly one
item and no item carries that payload, because the closing-brace arm of
handle_char_token (src/parser/primitives.rs, line 56) reports
UnbalancedGroup(None). -/
theorem c8_counterexample :
    hasUnbalancedSomeBrace (parse_events inputCloseBrace 20).1 = false ∧
    (parse_events inputCloseBrace 20).1.length = 1 :=
  ⟨rfl, rfl⟩

/-- C8 (amended): parsing a single closing brace produces the single item
Err(UnbalancedGroup(None)) and then the end of the sequence. -/
theorem c8_unbalanced_none :
    parse_events inputCloseBrace 20 =
      ([.errE ⟨.UnbalancedGroup none, some (0, 1, 1)⟩], .finished) := rfl

/-! ## C4: zero-copy provenance, counterexample run -/

/-- Whether every string field of every event in a produced sequence is a
view into the input. -/
def allStrsViews (items : List Item) : Bool :=
  items.all fun i => match i with
    | .okE e => (eventStrs e).all fun s => match s with
        | .view _ => true
        | .lit _ => false
    | .errE _ => true

/-- C4 (counterexample): parsing a single tilde emits a Text event whose
string is the static literal nbsp entity, not a view into the one-byte
input, refuting the claim that every string-typed field of every emitted
event is a view into the input. -/
theorem c4_counterexample :
    parse_events inputTilde 20 =
      ([.okE (.Content (.Text (.lit nbspChars)))], .finished) ∧
    allStrsViews (parse_events inputTilde 20).1 = false :=
  ⟨rfl, rfl⟩

/-! ## C5 and C6: the is_operator lookup -/

/-- Every range of OPERATOR_TABLE starts at or above 33 and ends at or
below 11192. -/
theorem operatorTable_bounds :
    ∀ p ∈ OPERATOR_TABLE, 33 ≤ p.1 ∧ p.2 ≤ 11192 := by decide

/-- When the lookup loop answers found, the searched value lies in some
range of the table. -/
theorem isOperatorLoop_found :
    ∀ (fuel : Nat) (c index : Nat),
      isOperatorLoop c index fuel = .found → inOperatorTable c = true := by
  intro fuel
  induction fuel with
  | zero =>
    intro c index h
    simp [isOperatorLoop] at h
  | succ f ih =>
    intro c index h
    simp only [isOperatorLoop] at h
    cases hg : OPERATOR_TABLE.get? index with
    | none => rw [hg] at h; simp at h
    | some p =>
      obtain ⟨s, e⟩ := p
      rw [hg] at h
      dsimp only at h
      by_cases h1 : c < s
      · rw [if_pos h1] at h
        by_cases h0 : index = 0
        · rw [if_pos h0] at h; simp at h
        · rw [if_neg h0] at h; exact ih c _ h
      · rw [if_neg h1] at h
        by_cases h2 : e < c
        · rw [if_pos h2] at h
          by_cases hL : index = OPERATOR_TABLE.length - 1
          · rw [if_pos hL] at h; simp at h
          · rw [if_neg hL] at h; exact ih c _ h
        · have hm : (s, e) ∈ OPERATOR_TABLE := List.get?_mem hg
          rw [inOperatorTable, List.any_eq_true]
          refine ⟨(s, e), hm, ?_⟩
          simp [Nat.not_lt.mp h1, Nat.not_lt.mp h2]

/-- When the lookup loop answers notFound, the searched value lies in no
range of the table: the loop only breaks below the first range start or
above the last range end. -/
theorem isOperatorLoop_notFound :
    ∀ (fuel : Nat) (c index : Nat),
      isOperatorLoop c index fuel = .notFound → inOperatorTable c = false := by
  intro fuel
  induction fuel with
  | zero =>
    intro c index h
    simp [isOperatorLoop] at h
  | succ f ih =>
    intro c index h
    simp only [isOperatorLoop] at h
    cases hg : OPERATOR_TABLE.get? index with
    | none => rw [hg] at h; simp at h
    | some p =>
      obtain ⟨s, e⟩ := p
      rw [hg] at h
      dsimp only at h
      by_cases h1 : c < s
      · rw [if_pos h1] at h
        by_cases h0 : index = 0
        · subst h0
          have h33 : OPERATOR_TABLE.get? 0 = some (33, 34) := by decide
          rw [h33] at hg
          simp only [Option.some.injEq, Prod.mk.injEq] at hg
          obtain ⟨hs, -⟩ := hg
          rw [inOperatorTable, List.any_eq_false]
          intro p hp
          have hb := (operatorTable_bounds p hp).1
          simp only [Bool.and_eq_true, decide_eq_true_eq, not_and]
          intro hle hle2
          omega
        · rw [if_neg h0] at h; exact ih c _ h
      · rw [if_neg h1] at h
        by_cases h2 : e < c
        · rw [if_pos h2] at h
          by_cases hL : index = OPERATOR_TABLE.length - 1
          · subst hL
            have h119 : OPERATOR_TABLE.get? (OPERATOR_TABLE.length - 1) =
                some (11192, 11192) := by decide
            rw [h119] at hg
            simp only [Option.some.injEq, Prod.mk.injEq] at hg
            obtain ⟨-, he⟩ := hg
            rw [inOperatorTable, List.any_eq_false]
            intro p hp
            have hb := (operatorTable_bounds p hp).2
            simp only [Bool.and_eq_true, decide_eq_true_eq, not_and]
            intro hle hle2
            omega
          · rw [if_neg hL] at h; exact ih c _ h
        · rw [if_neg h2] at h; simp at h

/-- C5 (amended): is_operator compares the code point truncated to its
low 16 bits (the u16 cast) against the table ranges: whenever the lookup
loop exits, its answer agrees with range inclusion of the truncated value.
Characters above U+FFFF are therefore classified by their low 16 bits, and
for some code points the loop never exits at all. -/
theorem c5_truncated_membership (c : Char) (fuel : Nat) :
    (is_operator c fuel = .found → inOperatorTable (c.toNat % 65536) = true) ∧
    (is_operator c fuel = .notFound → inOperatorTable (c.toNat % 65536) = false) :=
  ⟨isOperatorLoop_found fuel _ _, isOperatorLoop_notFound fuel _ _⟩

/-- C5 (witness): the exclamation mark terminates with found within ten
iterations and its code point 33 lies in the first range. -/
theorem c5_truncated_membership_witness :
    is_operator '!' 10 = .found ∧ inOperatorTable ('!'.toNat % 65536) = true :=
  ⟨by decide, (c5_truncated_membership '!' 10).1 (by decide)⟩

/-- C5 (counterexample): the character U+10021 terminates with found (its
low 16 bits are 33, inside the first range) although its full code point
65569 lies in no range of the table, refuting the claim that membership is
decided by range inclusion over the full code-point value. -/
theorem c5_counterexample :
    is_operator (Char.ofNat 65569) 10 = .found ∧ inOperatorTable 65569 = false := by
  decide

/-- The lookup loop for the value 35 cycles through the indices 55, 27,
13, 6, 3, 1, 0 and back to 55 without ever exiting. -/
theorem isOperatorLoop_cycle (fuel : Nat) :
    ∀ i ∈ ([55, 27, 13, 6, 3, 1, 0] : List Nat),
      isOperatorLoop 35 i fuel = .exhausted := by
  induction fuel with
  | zero => intro i _; rfl
  | succ f ih =>
    intro i hi
    fin_cases hi
    · exact ih 27 (by decide)
    · exact ih 13 (by decide)
    · exact ih 6 (by decide)
    · exact ih 3 (by decide)
    · exact ih 1 (by decide)
    · exact ih 0 (by decide)
    · exact ih 55 (by decide)

/-- C6: the lookup loop of is_operator does not terminate for every
character: on the hash character (code point 35) it cycles forever
through the indices 55, 27, 13, 6, 3, 1, 0, so no amount of fuel makes it
exit, refuting the claim that the index-halving search always exits. -/
theorem c6_is_operator_diverges (fuel : Nat) :
    is_operator '#' fuel = .exhausted := by
  have h35 : '#'.toNat % 65536 = 35 := by decide
  have hlen : OPERATOR_TABLE.length / 2 = 55 := by decide
  rw [is_operator, h35, hlen]
  exact isOperatorLoop_cycle fuel 55 (by decide)

/-! ## C9 and C10: the character dispatcher -/

/-- Every character encodes to at least one byte. -/
theorem utf8EncodeChar_length_pos (c : Char) : 1 ≤ (utf8EncodeChar c).length := by
  simp only [utf8EncodeChar]
  split_ifs <;> simp

/-- A character list has at least as many bytes as characters. -/
theorem utf8List_length_ge (cs : List Char) : cs.length ≤ (utf8List cs).length := by
  induction cs with
  | nil => simp [utf8List]
  | cons c cs ih =>
    have h1 := utf8EncodeChar_length_pos c
    simp only [utf8List, List.map_cons, List.flatten_cons, List.length_append,
      List.length_cons] at *
    omega

/-- Byte indices below the character count are in bounds of the UTF-8
byte list. -/
theorem utf8List_get_ne_none (cs : List Char) (n : Nat) (hn : n < cs.length) :
    (utf8List cs).get? n ≠ none := by
  rw [Ne, List.get?_eq_none]
  have := utf8List_length_ge cs
  omega

/-- A view with a first character is not empty. -/
theorem viewChars_ne_of_firstChar {input : List Char} {v : View} {c : Char}
    (hc : firstChar input v = some c) : viewChars input v ≠ [] := by
  intro h0
  rw [firstChar, h0] at hc
  exact Option.noConfusion hc

/-- The byte index probed by the number arms is always in bounds: it is at
most the number of characters after the leading digit. -/
theorem digit_probe_ne_none (input : List Char) (v : View) (c : Char)
    (hc : firstChar input v = some c) (p : Char → Bool) :
    (utf8List (viewChars input v)).get?
      (1 + (((viewChars input v).drop 1).takeWhile p).length - 1) ≠ none := by
  have hne := viewChars_ne_of_firstChar hc
  have hpos : 1 ≤ (viewChars input v).length := by
    cases h : viewChars input v with
    | nil => exact absurd h hne
    | cons a l => simp
  have htw : (((viewChars input v).drop 1).takeWhile p).length ≤
      ((viewChars input v).drop 1).length :=
    (List.takeWhile_prefix p).length_le
  rw [List.length_drop] at htw
  apply utf8List_get_ne_none
  omega

/-- C10: the character dispatcher panics exactly on the backslash and
percent characters: for those two character tokens handle_char_token hits
the panic arms at the top of the match, and for every other character,
every table instantiation and every state it returns a value (the number
arm's byte probe is always in bounds, so no other arm can panic).  Under
the lexer's guarantee that those two characters are never produced as
character tokens, the panics are therefore unreachable from the parsing
interface. -/
theorem c10_panic_characterisation (T : Tables) (al : Bool) (input : List Char)
    (inn : Inner) (tok : View) (c : Char) (hc : firstChar input tok = some c) :
    handle_char_token T al input inn tok = .panicked ↔ (c = '\\' ∨ c = '%') := by
  constructor
  · intro h
    by_cases h1 : c = '\\'
    · exact .inl h1
    by_cases h2 : c = '%'
    · exact .inr h2
    exfalso
    revert h
    apply Aesop.BuiltinRules.not_intro
    unfold handle_char_token
    rw [hc]
    dsimp only
    rw [if_neg h1, if_neg h2]
    by_cases hA : c = '_' ∨ c = '^'
    · rw [if_pos hA]; simp
    rw [if_neg hA]
    by_cases hB : c = '$'
    · rw [if_pos hB]; simp
    rw [if_neg hB]
    by_cases hC : c = '#'
    · rw [if_pos hC]; simp
    rw [if_neg hC]
    by_cases hD : c = '&' ∧ al = true
    · rw [if_pos hD]; simp
    rw [if_neg hD]
    by_cases hE : c = braceOpen
    · rw [if_pos hE]
      rcases hgc : group_content input inn.content [braceOpen] [braceClose] with e | ⟨body, rest⟩
      · simp
      · simp
    rw [if_neg hE]
    by_cases hF : c = braceClose
    · rw [if_pos hF]; simp
    rw [if_neg hF]
    by_cases hG : c = '~'
    · rw [if_pos hG]; simp
    rw [if_neg hG]
    by_cases hH : '0' ≤ c ∧ c ≤ '9'
    · rw [if_pos hH]
      rcases hget : (utf8List (viewChars input tok)).get?
          (1 + (((viewChars input tok).drop 1).takeWhile
            (fun d => d == '.' || d == ',' || ('0' ≤ d && d ≤ '9'))).length - 1) with - | b
      · exact absurd hget (digit_probe_ne_none input tok c hc _)
      · simp
    rw [if_neg hH]
    by_cases hI : c = '.' ∨ c = ',' ∨ c = ';'
    · rw [if_pos hI]; simp
    rw [if_neg hI]
    by_cases hJ : c = '\''
    · rw [if_pos hJ]; simp
    rw [if_neg hJ]
    by_cases hK : c = '-'
    · rw [if_pos hK]; simp
    rw [if_neg hK]
    by_cases hL : c = '*'
    · rw [if_pos hL]; simp
    rw [if_neg hL]
    by_cases hM : T.is_binary c = true
    · rw [if_pos hM]; simp
    rw [if_neg hM]
    by_cases hN : T.is_relation c = true
    · rw [if_pos hN]; simp
    rw [if_neg hN]
    rcases hdm : T.char_delimiter_map c with - | ⟨ch, ty⟩
    · simp
    · dsimp only
      by_cases hty : ty = DelimiterType.Fence
      · rw [if_pos hty]; simp
      · rw [if_neg hty]; simp
  · intro h
    unfold handle_char_token
    rw [hc]
    dsimp only
    rcases h with h | h
    · rw [if_pos h]
    · have hb : ¬(c = '\\') := by rw [h]; decide
      rw [if_neg hb, if_pos h]

/-- C10 (witness): the dispatcher panics on a backslash character
token. -/
theorem c10_panic_characterisation_witness :
    handle_char_token tablesModel false ['\\'] ⟨⟨1, 0⟩, []⟩ ⟨0, 1⟩ = .panicked :=
  (c10_panic_characterisation tablesModel false ['\\'] ⟨⟨1, 0⟩, []⟩ ⟨0, 1⟩ '\\' rfl).mpr
    (.inl rfl)

/-- C9 (amended): at bare-token level the dollar and hash characters fail
with MathShift and HashSign; the alignment character with alignment
allowed emits an Alignment event; but underscore and caret do not error:
they emit an empty Normal group (Begin then End) and reset the cursor to
the script character so the suffix pass consumes it; and the alignment
character outside an alignment-enabled group falls through to the
classification arms and emits a content event, never an error. -/
theorem c9_bare_token_behaviour (T : Tables) (al : Bool) (input : List Char)
    (inn : Inner) (tok : View) (c : Char) (hc : firstChar input tok = some c) :
    (c = '$' → handle_char_token T al input inn tok = .errK .MathShift) ∧
    (c = '#' → handle_char_token T al input inn tok = .errK .HashSign) ∧
    (c = '_' ∨ c = '^' →
      handle_char_token T al input inn tok =
        .ok ⟨tok, inn.buffer ++ [.event (.Begin .Normal), .event .End]⟩) ∧
    (c = '&' → al = true →
      handle_char_token T al input inn tok =
        .ok ⟨inn.content, inn.buffer ++ [.event .Alignment]⟩) ∧
    (c = '&' → al = false →
      ∃ ev : Content, handle_char_token T al input inn tok =
        .ok ⟨inn.content, inn.buffer ++ [.event (.Content ev)]⟩) := by
  refine ⟨?_, ?_, ?_, ?_, ?_⟩
  · intro h
    subst h
    unfold handle_char_token
    rw [hc]
    dsimp only
    rw [if_neg (by decide : ¬('$' : Char) = '\\'),
        if_neg (by decide : ¬('$' : Char) = '%'),
        if_neg (by decide : ¬(('$' : Char) = '_' ∨ ('$' : Char) = '^')),
        if_pos rfl]
  · intro h
    subst h
    unfold handle_char_token
    rw [hc]
    dsimp only
    rw [if_neg (by decide : ¬('#' : Char) = '\\'),
        if_neg (by decide : ¬('#' : Char) = '%'),
        if_neg (by decide : ¬(('#' : Char) = '_' ∨ ('#' : Char) = '^')),
        if_neg (by decide : ¬('#' : Char) = '$'),
        if_pos rfl]
  · intro h
    unfold handle_char_token
    rw [hc]
    dsimp only
    have h1 : ¬c = '\\' := by rcases h with h | h <;> subst h <;> decide
    have h2 : ¬c = '%' := by rcases h with h | h <;> subst h <;> decide
    rw [if_neg h1, if_neg h2, if_pos h]
  · intro h hal
    subst h
    subst hal
    unfold handle_char_token
    rw [hc]
    dsimp only
    rw [if_neg (by decide : ¬('&' : Char) = '\\'),
        if_neg (by decide : ¬('&' : Char) = '%'),
        if_neg (by decide : ¬(('&' : Char) = '_' ∨ ('&' : Char) = '^')),
        if_neg (by decide : ¬('&' : Char) = '$'),
        if_neg (by decide : ¬('&' : Char) = '#'),
        if_pos ⟨rfl, rfl⟩]
  · intro h hal
    subst h
    subst hal
    unfold handle_char_token
    rw [hc]
    dsimp only
    rw [if_neg (by decide : ¬('&' : Char) = '\\'),
        if_neg (by decide : ¬('&' : Char) = '%'),
        if_neg (by decide : ¬(('&' : Char) = '_' ∨ ('&' : Char) = '^')),
        if_neg (by decide : ¬('&' : Char) = '$'),
        if_neg (by decide : ¬('&' : Char) = '#'),
        if_neg (by simp : ¬(('&' : Char) = '&' ∧ false = true)),
        if_neg (by decide : ¬('&' : Char) = braceOpen),
        if_neg (by decide : ¬('&' : Char) = braceClose),
        if_neg (by decide : ¬('&' : Char) = '~'),
        if_neg (by decide : ¬(('0' : Char) ≤ '&' ∧ ('&' : Char) ≤ '9')),
        if_neg (by decide : ¬(('&' : Char) = '.' ∨ ('&' : Char) = ',' ∨ ('&' : Char) = ';')),
        if_neg (by decide : ¬('&' : Char) = '\''),
        if_neg (by decide : ¬('&' : Char) = '-'),
        if_neg (by decide : ¬('&' : Char) = '*')]
    by_cases hM : T.is_binary '&' = true
    · rw [if_pos hM]
      exact ⟨.BinaryOp '&' false, rfl⟩
    rw [if_neg hM]
    by_cases hN : T.is_relation '&' = true
    · rw [if_pos hN]
      exact ⟨.Relation '&' false false, rfl⟩
    rw [if_neg hN]
    rcases hdm : T.char_delimiter_map '&' with - | ⟨ch, ty⟩
    · exact ⟨.Ordinary '&' false, rfl⟩
    · dsimp only
      by_cases hty : ty = DelimiterType.Fence
      · rw [if_pos hty]
        exact ⟨.Ordinary ch false, rfl⟩
      · rw [if_neg hty]
        exact ⟨.Delimiter ch none ty, rfl⟩

/-- C9 (counterexample): on a bare underscore character token the
dispatcher does not fail: it returns Ok, emitting an empty Normal group,
refuting the claim that the underscore errors at bare-token level. -/
theorem c9_counterexample :
    (handle_char_token tablesModel false ['_'] ⟨⟨1, 0⟩, []⟩ ⟨0, 1⟩).isErrK = false ∧
    handle_char_token tablesModel false ['_'] ⟨⟨1, 0⟩, []⟩ ⟨0, 1⟩ =
      .ok ⟨⟨0, 1⟩, [.event (.Begin .Normal), .event .End]⟩ :=
  ⟨rfl, rfl⟩

/-- C9 (witness): the dollar character token fails with MathShift. -/
theorem c9_bare_token_behaviour_witness :
    handle_char_token tablesModel false ['$'] ⟨⟨1, 0⟩, []⟩ ⟨0, 1⟩ = .errK .MathShift :=
  (c9_bare_token_behaviour tablesModel false ['$'] ⟨⟨1, 0⟩, []⟩ ⟨0, 1⟩ '$' rfl).1 rfl

/-- Views produced by the number arm stay inside the input: the number
length is bounded by the token view length. -/
theorem digit_view_wf (input : List Char) (tok : View) (c : Char)
    (hc : firstChar input tok = some c) (htok : tok.wf input) (p : Char → Bool)
    (lenF : Nat)
    (hlen : lenF ≤ 1 + (((viewChars input tok).drop 1).takeWhile p).length) :
    View.wf input ⟨tok.start, lenF⟩ := by
  have hne := viewChars_ne_of_firstChar hc
  have hpos : 1 ≤ (viewChars input tok).length := by
    cases h : viewChars input tok with
    | nil => exact absurd h hne
    | cons a l => simp
  have htw : (((viewChars input tok).drop 1).takeWhile p).length ≤
      ((viewChars input tok).drop 1).length :=
    (List.takeWhile_prefix p).length_le
  rw [List.length_drop] at htw
  have hvl : (viewChars input tok).length ≤ tok.len := by
    rw [viewChars, List.length_take]
    omega
  rw [View.wf] at htok ⊢
  show tok.start + lenF ≤ input.length
  omega

/-- C4 (amended): every string-typed field of every event staged by the
character dispatcher is a view lying inside the input, with the single
exception of the static nbsp entity text emitted for the tilde character;
and the bmod primitive likewise emits the static function name mod rather
than a view.  Together with the number views of the driver this accounts
for all string fields of the embedded fragment. -/
theorem c4_zero_copy_dispatcher (T : Tables) (al : Bool) (input : List Char)
    (inn inn1 : Inner) (tok : View) (c : Char)
    (hc : firstChar input tok = some c)
    (htok : tok.wf input)
    (hok : handle_char_token T al input inn tok = .ok inn1) :
    (∃ Δ, inn1.buffer = inn.buffer ++ Δ ∧
      ∀ i ∈ Δ, ∀ s ∈ instrStrs i,
        (∃ w : View, s = .view w ∧ w.wf input) ∨ s = .lit nbspChars) ∧
    (∀ (cs : View) (inn2 inn3 : Inner),
      handlePrimitiveModel input cs inn2 = .ok inn3 →
      inn3.buffer = inn2.buffer ++
        [.event (.Content (.Function (.lit "mod".toList)))]) := by
  constructor
  · unfold handle_char_token at hok
    rw [hc] at hok
    dsimp only at hok
    by_cases h1 : c = '\\'
    · rw [if_pos h1] at hok; exact absurd hok (by simp)
    rw [if_neg h1] at hok
    by_cases h2 : c = '%'
    · rw [if_pos h2] at hok; exact absurd hok (by simp)
    rw [if_neg h2] at hok
    by_cases hA : c = '_' ∨ c = '^'
    · rw [if_pos hA] at hok
      cases hok
      refine ⟨_, rfl, ?_⟩
      intro i hi s hs
      fin_cases hi <;> simp [instrStrs, eventStrs] at hs
    rw [if_neg hA] at hok
    by_cases hB : c = '$'
    · rw [if_pos hB] at hok; exact absurd hok (by simp)
    rw [if_neg hB] at hok
    by_cases hC : c = '#'
    · rw [if_pos hC] at hok; exact absurd hok (by simp)
    rw [if_neg hC] at hok
    by_cases hD : c = '&' ∧ al = true
    · rw [if_pos hD] at hok
      cases hok
      refine ⟨_, rfl, ?_⟩
      intro i hi s hs
      fin_cases hi <;> simp [instrStrs, eventStrs] at hs
    rw [if_neg hD] at hok
    by_cases hE : c = braceOpen
    · rw [if_pos hE] at hok
      rcases hgc : group_content input inn.content [braceOpen] [braceClose] with e | ⟨body, rest⟩ <;>
        rw [hgc] at hok
      · exact absurd hok (by simp)
      · dsimp only at hok
        cases hok
        refine ⟨_, rfl, ?_⟩
        intro i hi s hs
        fin_cases hi <;> simp [instrStrs, eventStrs] at hs
    rw [if_neg hE] at hok
    by_cases hF : c = braceClose
    · rw [if_pos hF] at hok; exact absurd hok (by simp)
    rw [if_neg hF] at hok
    by_cases hG : c = '~'
    · rw [if_pos hG] at hok
      cases hok
      refine ⟨_, rfl, ?_⟩
      intro i hi s hs
      fin_cases hi
      simp [instrStrs, eventStrs] at hs
      exact Or.inr hs
    rw [if_neg hG] at hok
    by_cases hH : '0' ≤ c ∧ c ≤ '9'
    · rw [if_pos hH] at hok
      rcases hget : (utf8List (viewChars input tok)).get?
          (1 + (((viewChars input tok).drop 1).takeWhile
            (fun d => d == '.' || d == ',' || ('0' ≤ d && d ≤ '9'))).length - 1) with - | b <;>
        rw [hget] at hok
      · exact absurd hok (by simp)
      · dsimp only at hok
        cases hok
        refine ⟨_, rfl, ?_⟩
        intro i hi s hs
        fin_cases hi
        simp [instrStrs, eventStrs] at hs
        subst hs
        refine Or.inl ⟨_, rfl, ?_⟩
        apply digit_view_wf input tok c hc htok
          (fun d => d == '.' || d == ',' || ('0' ≤ d && d ≤ '9')) _ ?_
        by_cases hb : b = 46 ∨ b = 44
        · rw [if_pos hb]
          simp only [List.drop_one]
          omega
        · rw [if_neg hb]
          simp only [List.drop_one]
          omega
    rw [if_neg hH] at hok
    by_cases hI : c = '.' ∨ c = ',' ∨ c = ';'
    · rw [if_pos hI] at hok
      cases hok
      refine ⟨_, rfl, ?_⟩
      intro i hi s hs
      fin_cases hi <;> simp [instrStrs, eventStrs] at hs
    rw [if_neg hI] at hok
    by_cases hJ : c = '\''
    · rw [if_pos hJ] at hok
      cases hok
      refine ⟨_, rfl, ?_⟩
      intro i hi s hs
      fin_cases hi <;> simp [instrStrs, eventStrs, ordinary] at hs
    rw [if_neg hJ] at hok
    by_cases hK : c = '-'
    · rw [if_pos hK] at hok
      cases hok
      refine ⟨_, rfl, ?_⟩
      intro i hi s hs
      fin_cases hi <;> simp [instrStrs, eventStrs, binaryEv] at hs
    rw [if_neg hK] at hok
    by_cases hL : c = '*'
    · rw [if_pos hL] at hok
      cases hok
      refine ⟨_, rfl, ?_⟩
      intro i hi s hs
      fin_cases hi <;> simp [instrStrs, eventStrs, binaryEv] at hs
    rw [if_neg hL] at hok
    by_cases hM : T.is_binary c = true
    · rw [if_pos hM] at hok
      cases hok
      refine ⟨_, rfl, ?_⟩
      intro i hi s hs
      fin_cases hi <;> simp [instrStrs, eventStrs, binaryEv] at hs
    rw [if_neg hM] at hok
    by_cases hN : T.is_relation c = true
    · rw [if_pos hN] at hok
      cases hok
      refine ⟨_, rfl, ?_⟩
      intro i hi s hs
      fin_cases hi <;> simp [instrStrs, eventStrs, relationEv] at hs
    rw [if_neg hN] at hok
    rcases hdm : T.char_delimiter_map c with - | ⟨ch, ty⟩ <;> rw [hdm] at hok
    · dsimp only at hok
      cases hok
      refine ⟨_, rfl, ?_⟩
      intro i hi s hs
      fin_cases hi <;> simp [instrStrs, eventStrs, ordinary] at hs
    · dsimp only at hok
      by_cases hty : ty = DelimiterType.Fence
      · rw [if_pos hty] at hok
        cases hok
        refine ⟨_, rfl, ?_⟩
        intro i hi s hs
        fin_cases hi <;> simp [instrStrs, eventStrs, ordinary] at hs
      · rw [if_neg hty] at hok
        cases hok
        refine ⟨_, rfl, ?_⟩
        intro i hi s hs
        fin_cases hi <;> simp [instrStrs, eventStrs] at hs
  · intro cs inn2 inn3 h3
    unfold handlePrimitiveModel at h3
    by_cases hbc : viewChars input cs = "bmod".toList
    · rw [if_pos hbc] at h3
      cases h3
      rfl
    · rw [if_neg hbc] at h3
      exact absurd h3 (by simp)

/-- A view with a first character has non-zero length. -/
theorem len_ne_of_firstChar {input : List Char} {v : View} {c : Char}
    (h : firstChar input v = some c) : v.len ≠ 0 := by
  intro h0
  apply viewChars_ne_of_firstChar h
  rw [viewChars, h0]
  exact List.take_zero _

/-- current_string on a stack whose top substring is non-empty returns it
and leaves the state unchanged. -/
theorem current_string_concat (stk : List Instruction) (v : View) (al : Bool)
    (buf : List Instruction) (gs : List GroupType) (hv : v.len ≠ 0) :
    current_string ⟨stk ++ [.substring v al], buf, gs⟩ =
      (.strv v al, ⟨stk ++ [.substring v al], buf, gs⟩) := by
  unfold current_string
  simp only [List.reverse_append, List.reverse_cons, List.reverse_nil,
    List.nil_append, List.singleton_append]
  rw [csAux.eq_def]
  dsimp only
  rw [if_neg hv]
  simp

/-- replaceTop on a stack with an explicit top substring. -/
theorem replaceTop_concat (stk : List Instruction) (v : View) (al : Bool)
    (buf : List Instruction) (gs : List GroupType) (w : View) (al2 : Bool) :
    replaceTop ⟨stk ++ [.substring v al], buf, gs⟩ w al2 =
      ⟨stk ++ [.substring w al2], buf, gs⟩ := by
  simp [replaceTop, List.dropLast_concat]

/-- C1: when an atom staged in the buffer is followed by both suffixes, in
either source order (sf records whether the subscript came first), and the
two suffix arguments are parsed and handled successfully (appending the
instruction segments Δ1 and Δ2 to the buffer), check_suffixes reports
SubSuperscript and arranges the instruction stack so that, reading from
the top after the driver drains the atom, the emitted order is
Visual(SubSuperscript), then the staged atom (the base), then the
subscript segment, then the superscript segment, regardless of the source
order: the superscript segment always sits deepest.  The second conjunct
performs step 3 of Parser::next and exhibits the final stack. -/
theorem c1_subsuperscript_canonical_order
    (T : Tables) (HP : HandlePrim) (input : List Char)
    (stk : List Instruction) (buf Δ1 Δ2 : List Instruction)
    (gs gs1 gs2 : List GroupType)
    (v c1v cf r1 r2 : View) (al : Bool) (sf : Bool)
    (a1 a2 : Argument)
    (htrim : vtrimStart input v = v)
    (hc0 : firstChar input v = some (cond sf '_' '^'))
    (hne1 : (vadvance v 1).len ≠ 0)
    (harg1 : lex_argument input (vadvance v 1) = .ok (a1, r1))
    (hha1 : handle_argument T HP al input gs ⟨r1, buf⟩ a1 = .ok (gs1, ⟨c1v, buf ++ Δ1⟩))
    (hnc : firstChar input c1v = some (cond sf '^' '_'))
    (hne2 : (vadvance c1v 1).len ≠ 0)
    (harg2 : lex_argument input (vadvance c1v 1) = .ok (a2, r2))
    (hha2 : handle_argument T HP al input gs1 ⟨r2, buf ++ Δ1⟩ a2 =
      .ok (gs2, ⟨cf, (buf ++ Δ1) ++ Δ2⟩))
    (hΔ2 : Δ2 ≠ []) :
    check_suffixes T HP input ⟨stk ++ [.substring v al], buf, gs⟩ =
      (.suffix (some .SubSuperscript),
       ⟨(stk ++ [.substring cf al]) ++
          ((cond sf Δ2 Δ1).reverse ++ (cond sf Δ1 Δ2).reverse),
        buf, gs2⟩) ∧
    drain_to_stack
      ⟨(stk ++ [.substring cf al]) ++
          ((cond sf Δ2 Δ1).reverse ++ (cond sf Δ1 Δ2).reverse),
        buf, gs2⟩ (some .SubSuperscript) =
      ⟨(stk ++ [.substring cf al]) ++
          ((cond sf Δ2 Δ1).reverse ++ (cond sf Δ1 Δ2).reverse) ++
          (buf.reverse ++ [.event (.Visual .SubSuperscript)]),
        [], gs2⟩ := by
  have hz : Δ2.length ≠ 0 := fun h => hΔ2 (List.length_eq_zero.mp h)
  have hlen : ((buf ++ Δ1) : List Instruction).length ≠
      (((buf ++ Δ1) ++ Δ2) : List Instruction).length := by
    simp only [List.length_append]
    omega
  cases sf
  · -- superscript first
    simp only [cond] at hc0 hnc ⊢
    constructor
    · unfold check_suffixes
      rw [current_string_concat _ _ _ _ _ (len_ne_of_firstChar hc0)]
      dsimp only
      rw [htrim, replaceTop_concat, hc0]
      dsimp only
      rw [if_pos (Or.inl rfl), replaceTop_concat,
        current_string_concat _ _ _ _ _ hne1]
      dsimp only
      rw [harg1]
      dsimp only
      rw [replaceTop_concat]
      dsimp only
      rw [hha1]
      dsimp only
      rw [replaceTop_concat]
      dsimp only
      rw [current_string_concat _ _ _ _ _ (len_ne_of_firstChar hnc)]
      dsimp only
      rw [hnc]
      dsimp only
      rw [if_pos (Or.inl ⟨rfl, by decide⟩), replaceTop_concat,
        current_string_concat _ _ _ _ _ hne2]
      dsimp only
      rw [harg2]
      dsimp only
      rw [replaceTop_concat]
      dsimp only
      rw [hha2]
      dsimp only
      rw [replaceTop_concat]
      dsimp only
      rw [if_pos ⟨by decide, hlen⟩]
      simp [List.drop_left, List.take_left, List.length_append,
        List.append_assoc]
    · simp [drain_to_stack, suffixEvents, List.append_assoc]
  · -- subscript first
    simp only [cond] at hc0 hnc ⊢
    constructor
    · unfold check_suffixes
      rw [current_string_concat _ _ _ _ _ (len_ne_of_firstChar hc0)]
      dsimp only
      rw [htrim, replaceTop_concat, hc0]
      dsimp only
      rw [if_pos (Or.inr rfl), replaceTop_concat,
        current_string_concat _ _ _ _ _ hne1]
      dsimp only
      rw [harg1]
      dsimp only
      rw [replaceTop_concat]
      dsimp only
      rw [hha1]
      dsimp only
      rw [replaceTop_concat]
      dsimp only
      rw [current_string_concat _ _ _ _ _ (len_ne_of_firstChar hnc)]
      dsimp only
      rw [hnc]
      dsimp only
      rw [if_pos (Or.inr ⟨rfl, rfl⟩), replaceTop_concat,
        current_string_concat _ _ _ _ _ hne2]
      dsimp only
      rw [harg2]
      dsimp only
      rw [replaceTop_concat]
      dsimp only
      rw [hha2]
      dsimp only
      rw [replaceTop_concat]
      dsimp only
      rw [if_neg (fun h => h.1 rfl), if_pos hlen]
      simp [List.drop_left, List.take_left, List.length_append,
        List.append_assoc, List.reverse_append]
    · simp [drain_to_stack, suffixEvents, List.append_assoc]

/-- C1 (witness): the mid-parse state of the input a^1_2 after the base
atom a has been staged: the two suffix arguments are the digits, the
superscript came first in the source, and the committed stack pops as
Visual(SubSuperscript), base, subscript, superscript. -/
theorem c1_subsuperscript_canonical_order_witness :
    check_suffixes tablesModel (handlePrimitiveModel "a^1_2".toList) "a^1_2".toList
        ⟨([] : List Instruction) ++ [.substring ⟨1, 4⟩ false],
         [.event (ordinary 'a')], [.Brace]⟩ =
      (.suffix (some .SubSuperscript),
       ⟨(([] : List Instruction) ++ [.substring ⟨5, 0⟩ false]) ++
          ((cond false [Instruction.event (.Content (.Number (.Str (.view ⟨4, 1⟩))))]
              [Instruction.event (.Content (.Number (.Str (.view ⟨2, 1⟩))))]).reverse ++
           (cond false [Instruction.event (.Content (.Number (.Str (.view ⟨2, 1⟩))))]
              [Instruction.event (.Content (.Number (.Str (.view ⟨4, 1⟩))))]).reverse),
        [.event (ordinary 'a')], [.Brace]⟩) ∧
    drain_to_stack
      ⟨(([] : List Instruction) ++ [.substring ⟨5, 0⟩ false]) ++
          ((cond false [Instruction.event (.Content (.Number (.Str (.view ⟨4, 1⟩))))]
              [Instruction.event (.Content (.Number (.Str (.view ⟨2, 1⟩))))]).reverse ++
           (cond false [Instruction.event (.Content (.Number (.Str (.view ⟨2, 1⟩))))]
              [Instruction.event (.Content (.Number (.Str (.view ⟨4, 1⟩))))]).reverse),
        [.event (ordinary 'a')], [.Brace]⟩ (some .SubSuperscript) =
      ⟨(([] : List Instruction) ++ [.substring ⟨5, 0⟩ false]) ++
          ((cond false [Instruction.event (.Content (.Number (.Str (.view ⟨4, 1⟩))))]
              [Instruction.event (.Content (.Number (.Str (.view ⟨2, 1⟩))))]).reverse ++
           (cond false [Instruction.event (.Content (.Number (.Str (.view ⟨2, 1⟩))))]
              [Instruction.event (.Content (.Number (.Str (.view ⟨4, 1⟩))))]).reverse) ++
          (([Instruction.event (ordinary 'a')] : List Instruction).reverse ++
           [.event (.Visual .SubSuperscript)]),
        [], [.Brace]⟩ :=
  c1_subsuperscript_canonical_order tablesModel (handlePrimitiveModel "a^1_2".toList)
    "a^1_2".toList [] [.event (ordinary 'a')]
    [.event (.Content (.Number (.Str (.view ⟨2, 1⟩))))]
    [.event (.Content (.Number (.Str (.view ⟨4, 1⟩))))]
    [.Brace] [.Brace] [.Brace]
    ⟨1, 4⟩ ⟨3, 2⟩ ⟨5, 0⟩ ⟨3, 2⟩ ⟨5, 0⟩ false false
    (.Token (.Character ⟨2, 3⟩)) (.Token (.Character ⟨4, 1⟩))
    rfl rfl (by decide) rfl rfl rfl (by decide) rfl rfl (by decide)

/-- C4 (witness): the number view staged for the digit input 5 lies inside
the input, and the bmod arm emits the static mod string. -/
theorem c4_zero_copy_dispatcher_witness :
    (∃ Δ, (Inner.buffer ⟨⟨1, 0⟩,
        [.event (.Content (.Number (.Str (.view ⟨0, 1⟩))))]⟩) =
        (Inner.buffer ⟨⟨1, 0⟩, []⟩) ++ Δ ∧
      ∀ i ∈ Δ, ∀ s ∈ instrStrs i,
        (∃ w : View, s = .view w ∧ w.wf "5".toList) ∨ s = .lit nbspChars) ∧
    (∀ (cs : View) (inn2 inn3 : Inner),
      handlePrimitiveModel "5".toList cs inn2 = .ok inn3 →
      inn3.buffer = inn2.buffer ++
        [.event (.Content (.Function (.lit "mod".toList)))]) :=
  c4_zero_copy_dispatcher tablesModel false "5".toList ⟨⟨1, 0⟩, []⟩
    ⟨⟨1, 0⟩, [.event (.Content (.Number (.Str (.view ⟨0, 1⟩))))]⟩
    ⟨0, 1⟩ '5' rfl (by unfold View.wf; decide) rfl

end PulldownLatex
